import Mathlib

set_option maxRecDepth 100000

/-!
Verification development for the cross-chain intent commitment and
selective-disclosure helpers of the repository.

The embedding translates, from the TypeScript source:
  * `src/utils/delegate-helpers.ts`: `hashChainBatches`, `getIntentHash`,
    `selectChainForChainBatches`, together with the ABI encodings they rely on
    (viem's `encodeAbiParameters` for the exact parameter shapes used by the
    source, including viem's range validation of `uint256`/`address` values)
    and a genuine keccak-256.
  * `src/crosschain-native-swap.ts`: the `waitForBlock` polling loop and the
    await-induced ordering of the orchestration in `main`.
  * `submitTransaction` (relay client): bigint-aware JSON serialization and
    response handling.

Machine integers are Nat/Int with explicit `% 2 ^ w` where overflow matters;
JavaScript `bigint` values are Int; byte strings are `List Nat` of byte
values; code that can throw returns `Except String _`.
-/

/-! ## Keccak-256 (the hash used by viem's `keccak256`) -/

def rotl64 (x n : Nat) : Nat :=
  ((x <<< n) ||| (x >>> (64 - n))) % 2 ^ 64

def not64 (x : Nat) : Nat := x ^^^ (2 ^ 64 - 1)

/-- One step of the degree-8 LFSR that generates the round-constant bit
stream of Keccak-f[1600]. -/
def rcStep (r : Nat) : Nat :=
  ((r <<< 1) ^^^ (((r >>> 7) &&& 1) * 0x71)) % 256

/-- First `k` bits of the LFSR output stream started from register value
`r`. -/
def rcBitsAux : Nat → Nat → List Nat
  | 0, _ => []
  | k + 1, r => (r &&& 1) :: rcBitsAux k (rcStep r)

/-- The 24 round constants of Keccak-f[1600]: round `i` sets bit `2 ^ j - 1`
to LFSR bit `7 * i + j`, for `j < 7`. -/
def keccakRC : List Nat :=
  let bits := rcBitsAux 168 1
  (List.range 24).map fun i =>
    ((List.range 7).map fun j => bits.getD (7 * i + j) 0 <<< (2 ^ j - 1)).sum

/-- Rotation offsets of the rho step, lane `(x, y)` at index `x + 5 * y`,
generated by the standard walk: starting from `(1, 0)`, step `t` assigns
`(t + 1) * (t + 2) / 2 mod 64` and moves to `(y, (2 * x + 3 * y) % 5)`;
lane `(0, 0)` keeps offset `0`. -/
def rhoOffsetPairs : List (Nat × Nat) :=
  ((List.range 24).foldl
    (fun st t =>
      let x := st.1.1
      let y := st.1.2
      ((y, (2 * x + 3 * y) % 5), (x + 5 * y, (t + 1) * (t + 2) / 2 % 64) :: st.2))
    ((1, 0), [])).2

def rhoOffsets : List Nat :=
  (List.range 25).map fun i => (List.lookup i rhoOffsetPairs).getD 0

def keccakRound (st : List Nat) (rc : Nat) : List Nat :=
  let A := fun i => st.getD i 0
  let C := fun x => A x ^^^ A (x + 5) ^^^ A (x + 10) ^^^ A (x + 15) ^^^ A (x + 20)
  let D := fun x => C ((x + 4) % 5) ^^^ rotl64 (C ((x + 1) % 5)) 1
  let B := fun j =>
    let X := j % 5
    let Y := j / 5
    let i := (X + 3 * Y) % 5 + 5 * X
    rotl64 (A i ^^^ D (i % 5)) (rhoOffsets.getD i 0)
  let chi := fun j =>
    let x := j % 5
    let y := j / 5
    B j ^^^ (not64 (B ((x + 1) % 5 + 5 * y)) &&& B ((x + 2) % 5 + 5 * y))
  (List.range 25).map fun j => if j = 0 then chi 0 ^^^ rc else chi j

def keccakF (st : List Nat) : List Nat :=
  keccakRC.foldl keccakRound st

def keccakPad (msg : List Nat) : List Nat :=
  let padLen := 136 - msg.length % 136
  if padLen = 1 then msg ++ [0x81]
  else msg ++ [0x01] ++ List.replicate (padLen - 2) 0 ++ [0x80]

def bytesToLane (bs : List Nat) : Nat :=
  bs.foldr (fun b acc => acc * 256 + b % 256) 0

def xorBlockIn (st : List Nat) (block : List Nat) : List Nat :=
  (List.range 25).map fun i =>
    st.getD i 0 ^^^ (if i < 17 then bytesToLane ((block.drop (8 * i)).take 8) else 0)

def absorbBlocks : Nat → List Nat → List Nat → List Nat
  | 0, st, _ => st
  | n + 1, st, bytes => absorbBlocks n (keccakF (xorBlockIn st (bytes.take 136))) (bytes.drop 136)

def laneBytes (x : Nat) : List Nat :=
  (List.range 8).map fun b => (x >>> (8 * b)) % 256

/-- Keccak-256 of a byte string, checked against the standard test vectors
keccak256("") = c5d246...a470 and keccak256("abc") = 4e0365...6c45. -/
def keccak256 (msg : List Nat) : List Nat :=
  let p := keccakPad msg
  let st := absorbBlocks (p.length / 136) (List.replicate 25 0) p
  (List.range 4).flatMap fun k => laneBytes (st.getD k 0)

/-! ## ABI encoding, for exactly the parameter shapes the source passes to
viem's `encodeAbiParameters`, with viem's value validation. -/

/-- One 32-byte big-endian ABI word. -/
def word (n : Nat) : List Nat :=
  (List.range 32).map fun i => (n >>> (8 * (31 - i))) % 256

/-- Right-pad a byte string with zeros to a multiple of 32 bytes. -/
def padRight32 (bs : List Nat) : List Nat :=
  bs ++ List.replicate ((32 - bs.length % 32) % 32) 0

/-- viem rejects values outside the `uint256` range with
`IntegerOutOfRangeError`. -/
def encodeUint256 (v : Int) : Except String (List Nat) :=
  if 0 ≤ v ∧ v < 2 ^ 256 then .ok (word v.toNat) else .error "IntegerOutOfRange"

/-- viem rejects malformed addresses with `InvalidAddressError`; a valid
address is a 160-bit value. -/
def encodeAddress (a : Nat) : Except String (List Nat) :=
  if a < 2 ^ 160 then .ok (word a) else .error "InvalidAddress"

/-- ABI encoding of a dynamic `bytes` value: length word, then the bytes
right-padded to a word boundary. -/
def encodeBytesDyn (bs : List Nat) : List Nat :=
  word bs.length ++ padRight32 bs

/-! ## Data model of `delegate-helpers.ts` -/

/-- Call: one contract invocation `{to, value, data}` (`CallAbi`:
`(address to, uint value, bytes data)`). -/
structure Call where
  «to» : Nat
  value : Int
  data : List Nat
  deriving DecidableEq, Repr

/-- ChainBatchInput: `{chainId, calls[], recentBlock}` before hashing. -/
structure ChainBatchInput where
  chainId : Int
  calls : List Call
  recentBlock : Int
  deriving DecidableEq, Repr

/-- ChainBatch: `{hash, chainId, calls[], recentBlock}` after hashing. -/
structure ChainBatch where
  hash : List Nat
  chainId : Int
  calls : List Call
  recentBlock : Int
  deriving DecidableEq, Repr

/-- ABI encoding of one `Call` tuple `(address, uint, bytes)`: three head
words (the `bytes` head is the offset 96) followed by the `bytes` tail. -/
def encodeCall (c : Call) : Except String (List Nat) := do
  let toEnc ← encodeAddress c.«to»
  let valEnc ← encodeUint256 c.value
  .ok (toEnc ++ valEnc ++ word 96 ++ encodeBytesDyn c.data)

/-- Encode each element of a `Call[]` in order, failing at the first invalid
element, as viem does. -/
def encodeCallList : List Call → Except String (List (List Nat))
  | [] => .ok []
  | c :: cs => do
    let e ← encodeCall c
    let es ← encodeCallList cs
    .ok (e :: es)

/-- Element offsets for a dynamic array of dynamic tuples: each offset is
relative to the byte right after the length word. -/
def callOffsets (encs : List (List Nat)) : List (List Nat) :=
  (List.range encs.length).map fun i =>
    word (32 * encs.length + ((encs.take i).map List.length).sum)

/-- ABI encoding of `calls` as `tuple[](address,uint256,bytes)`: length word,
per-element offsets, then the element encodings. -/
def encodeCallArray (calls : List Call) : Except String (List Nat) := do
  let encs ← encodeCallList calls
  .ok (word calls.length ++ (callOffsets encs).flatten ++ encs.flatten)

/-- ABI encoding of `ChainAuthorizationSignatureComponentsAbi`, the
fixed-order parameter list `(chainId: uint256, calls: tuple[], recentBlock:
uint256)`: the heads are the `chainId` word, the offset 96 of the dynamic
`calls` tail, and the `recentBlock` word; parameters are validated in source
order. -/
def encodeBatchTuple (chainId : Int) (calls : List Call) (recentBlock : Int) :
    Except String (List Nat) := do
  let cEnc ← encodeUint256 chainId
  let callsEnc ← encodeCallArray calls
  let rEnc ← encodeUint256 recentBlock
  .ok (cEnc ++ word 96 ++ rEnc ++ callsEnc)

/-- hashChainBatches (`delegate-helpers.ts` lines 137-159): for each input,
coerce `chainId`/`recentBlock` with `BigInt()` (identity on mathematical
integers), keccak256 the ABI encoding of the fixed-order tuple, and return
the `ChainBatch` carrying the hash and the original fields.  A thrown viem
validation error is modelled as `Except.error`; the JS `Array.map` evaluates
left to right and the first throw aborts the whole call. -/
def hashChainBatches : List ChainBatchInput → Except String (List ChainBatch)
  | [] => .ok []
  | inp :: rest => do
    let enc ← encodeBatchTuple inp.chainId inp.calls inp.recentBlock
    let bs ← hashChainBatches rest
    .ok (⟨keccak256 enc, inp.chainId, inp.calls, inp.recentBlock⟩ :: bs)

/-- ABI encoding of a single dynamic `bytes32[]` parameter: the offset word
32, the length word, then the 32-byte elements; viem rejects an element whose
size is not exactly 32 bytes. -/
def encodeBytes32Array (hs : List (List Nat)) : Except String (List Nat) :=
  if hs.all fun h => h.length == 32 then .ok (word 32 ++ word hs.length ++ hs.flatten)
  else .error "BytesSizeMismatch"

/-- getIntentHash (`delegate-helpers.ts` lines 161-168): map each batch to its
`hash` field, ABI-encode the hashes as `bytes32[]`, keccak256 the result. -/
def getIntentHash (chainAuthorizations : List ChainBatch) : Except String (List Nat) :=
  (encodeBytes32Array (chainAuthorizations.map ChainBatch.hash)).map keccak256

/-- The `{chainId}` selector object passed to `selectChainForChainBatches`. -/
structure ChainSelector where
  chainId : Int

/-- selectChainForChainBatches (`delegate-helpers.ts` lines 170-178): spread
each batch unchanged, replacing `calls` by the original calls when the
selector's chainId equals the batch's chainId and by `[]` otherwise. -/
def selectChainForChainBatches (chainBatches : List ChainBatch) (sel : ChainSelector) :
    List ChainBatch :=
  chainBatches.map fun auth =>
    { auth with calls := if sel.chainId = auth.chainId then auth.calls else [] }

/-- Default used only to state `getD`-indexed properties. -/
def defaultChainBatch : ChainBatch := ⟨[], 0, [], 0⟩

/-- Default used only to state `getD`-indexed properties. -/
def defaultChainBatchInput : ChainBatchInput := ⟨0, [], 0⟩

/-- Value bounds under which viem encodes a `Call` without throwing. -/
def CallOk (c : Call) : Prop :=
  c.«to» < 2 ^ 160 ∧ 0 ≤ c.value ∧ c.value < 2 ^ 256

/-- Value bounds under which viem encodes a whole batch input without
throwing. -/
def ChainBatchInputOk (inp : ChainBatchInput) : Prop :=
  0 ≤ inp.chainId ∧ inp.chainId < 2 ^ 256 ∧
  0 ≤ inp.recentBlock ∧ inp.recentBlock < 2 ^ 256 ∧
  ∀ c ∈ inp.calls, CallOk c

instance : DecidablePred CallOk := fun c => by unfold CallOk; infer_instance

instance : DecidablePred ChainBatchInputOk := fun inp => by
  unfold ChainBatchInputOk; infer_instance

/-- Whether an `Except` computation finished without throwing. -/
def exceptOk : Except String (List Nat) → Bool
  | .ok _ => true
  | .error _ => false

/-! ## Solver orchestration (`src/crosschain-native-swap.ts`)

The `waitForBlock` loop polls `getBlockNumber()` and sleeps 3000 ms between
polls until the observed head strictly exceeds the watermark.  The `main`
driver, however, starts `waitForBlock(...)` with a fire-and-forget `.then`
(the promise is never awaited) and immediately awaits `writeContract`, so the
only orderings guaranteed between the program's suspension points are the
ones induced by `await`.  We model the poll loop over an observation stream
(with fuel, since the source loop is unbounded) and the await-induced
ordering as a set of edges that any execution schedule must respect. -/

/-- The fixed poll interval of `waitForBlock`: `setTimeout(resolve, 3000)`. -/
def blockPollIntervalMs : Nat := 3000

/-- waitForBlock's loop (`crosschain-native-swap.ts` lines 48-59): starting at
poll index `i`, return the index of the first poll whose observed block number
strictly exceeds the watermark, or `none` if `fuel` polls were not enough
(the source loop itself is unbounded). -/
def waitForBlockLoop : Nat → (Nat → Int) → Int → Nat → Option Nat
  | 0, _, _, _ => none
  | fuel + 1, blockAt, watermark, i =>
    if blockAt i > watermark then some i
    else waitForBlockLoop fuel blockAt watermark (i + 1)

/-- The two chains touched by the crosschain swap scripts. -/
inductive ChainTag where
  | source
  | dest
  deriving DecidableEq, Repr

/-- Suspension-point events of `main` in `crosschain-native-swap.ts`. -/
inductive SwapEvent where
  | signDigest
  | watermarkObserved (c : ChainTag)
  | submitSelfExecute (c : ChainTag)
  | receiptConfirmed (c : ChainTag)
  deriving DecidableEq, Repr

/-- All events of one run of `main`. -/
def mainSwapEvents : List SwapEvent :=
  [.signDigest,
   .watermarkObserved .source, .submitSelfExecute .source, .receiptConfirmed .source,
   .watermarkObserved .dest, .submitSelfExecute .dest, .receiptConfirmed .dest]

/-- Orderings guaranteed by `main` (`crosschain-native-swap.ts` lines
130-196): each pair `(a, b)` means the code forces `a` to complete before `b`
starts.  `waitForBlock(sourceClient, ...)` is invoked after signing but its
promise is only given a `.then` logger and is never awaited, so there is no
edge from `watermarkObserved` to `submitSelfExecute` on either chain; the
`writeContract` call is awaited right after the fire-and-forget call. -/
def mainAwaitEdges : List (SwapEvent × SwapEvent) :=
  [(.signDigest, .watermarkObserved .source),
   (.signDigest, .submitSelfExecute .source),
   (.submitSelfExecute .source, .receiptConfirmed .source),
   (.receiptConfirmed .source, .watermarkObserved .dest),
   (.receiptConfirmed .source, .submitSelfExecute .dest),
   (.submitSelfExecute .dest, .receiptConfirmed .dest)]

/-- A schedule is a linearization of all the events of one run. -/
def isPermOfMain (tr : List SwapEvent) : Bool :=
  tr.length == mainSwapEvents.length && mainSwapEvents.all fun e => tr.contains e

/-- Whether a schedule respects every await-induced edge of `main`. -/
def respectsAwaits (tr : List SwapEvent) : Bool :=
  mainAwaitEdges.all fun p => tr.indexOf p.1 < tr.indexOf p.2

/-- The schedules the code of `main` can produce under the JS event loop:
any interleaving of its suspension points consistent with the awaits. -/
def validMainSchedule (tr : List SwapEvent) : Bool :=
  isPermOfMain tr && respectsAwaits tr

/-- A schedule in which both self-execute transactions are submitted before
their chain's watermark poll ever succeeds.  It is admitted by the code
because `waitForBlock` is never awaited. -/
def earlySubmitSchedule : List SwapEvent :=
  [.signDigest,
   .submitSelfExecute .source, .receiptConfirmed .source, .watermarkObserved .source,
   .submitSelfExecute .dest, .receiptConfirmed .dest, .watermarkObserved .dest]

/-! ## Relay submission client (`submitTransaction`) -/

mutual

/-- A JSON value as built by the submission client; `jbig` marks a JavaScript
`bigint` leaf, which plain `JSON.stringify` cannot serialize and which the
replacer turns into its decimal string. -/
inductive JVal where
  | jstr (s : String)
  | jnum (n : Nat)
  | jbig (n : Int)
  | jarr (xs : JArr)
  | jobj (fs : JObj)

inductive JArr where
  | nil
  | cons (v : JVal) (rest : JArr)

inductive JObj where
  | nil
  | cons (key : String) (v : JVal) (rest : JObj)

end

/-- Build a JSON array node from a list of values. -/
def JArr.ofList : List JVal → JArr
  | [] => .nil
  | v :: vs => .cons v (JArr.ofList vs)

/-- Build a JSON object node from a key/value list (insertion order, as
`JSON.stringify` preserves it). -/
def JObj.ofList : List (String × JVal) → JObj
  | [] => .nil
  | (k, v) :: fs => .cons k v (JObj.ofList fs)

/-- Escape the characters that can occur in the client's strings. -/
def jsonEscape (s : String) : String :=
  ⟨s.data.flatMap fun c => if c = '"' ∨ c = '\\' then ['\\', c] else [c]⟩

mutual

/-- Render a JSON value the way `JSON.stringify(request, replacer)` does,
where the replacer maps a bigint to its decimal string. -/
def renderJVal : JVal → String
  | .jstr s => "\"" ++ jsonEscape s ++ "\""
  | .jnum n => toString n
  | .jbig n => "\"" ++ toString n ++ "\""
  | .jarr xs => "[" ++ renderJArr xs ++ "]"
  | .jobj fs => "\x7b" ++ renderJObj fs ++ "\x7d"

def renderJArr : JArr → String
  | .nil => ""
  | .cons v .nil => renderJVal v
  | .cons v rest => renderJVal v ++ "," ++ renderJArr rest

def renderJObj : JObj → String
  | .nil => ""
  | .cons k v .nil => "\"" ++ jsonEscape k ++ "\":" ++ renderJVal v
  | .cons k v rest => "\"" ++ jsonEscape k ++ "\":" ++ renderJVal v ++ "," ++ renderJObj rest

end

/-- One EIP-7702 authorization as it appears in the request body (viem's
`Authorization`): `chainId`, `nonce`, `yParity` are JS numbers, `v` when
present is a bigint. -/
structure AuthorizationItem where
  address : String
  chainId : Nat
  nonce : Nat
  r : String
  s : String
  yParity : Nat
  v : Option Int
  deriving DecidableEq, Repr

/-- A call inside the request's `chainBatches`: `value` is a bigint. -/
structure JCall where
  «to» : String
  value : Int
  data : String
  deriving DecidableEq, Repr

/-- One entry of `intentAuthorization.chainBatches`: `chainId` and
`recentBlock` are bigints. -/
structure TxChainBatch where
  hash : String
  chainId : Int
  calls : List JCall
  recentBlock : Int
  deriving DecidableEq, Repr

/-- The `intentAuthorization` part of a `TxSubmitRequest`. -/
structure IntentAuthorization where
  signature : String
  chainBatches : List TxChainBatch
  deriving DecidableEq, Repr

/-- TxSubmitRequest (`delegate-helpers` interface): the POST payload. -/
structure TxSubmitRequest where
  address : String
  authorization : List AuthorizationItem
  intentAuthorization : IntentAuthorization
  tokenAddress : Option String
  tokenAmount : Option Int
  deriving DecidableEq, Repr

/-- JSON tree of an authorization entry. -/
def authorizationToJVal (a : AuthorizationItem) : JVal :=
  .jobj (JObj.ofList
    ([("address", .jstr a.address), ("chainId", .jnum a.chainId),
      ("nonce", .jnum a.nonce), ("r", .jstr a.r), ("s", .jstr a.s),
      ("yParity", .jnum a.yParity)] ++
     match a.v with
     | some n => [("v", JVal.jbig n)]
     | none => []))

/-- JSON tree of a call: `value` is a bigint leaf. -/
def callToJVal (c : JCall) : JVal :=
  .jobj (JObj.ofList
    [("to", .jstr c.«to»), ("value", .jbig c.value), ("data", .jstr c.data)])

/-- JSON tree of a chain batch: `chainId` and `recentBlock` are bigint
leaves. -/
def batchToJVal (b : TxChainBatch) : JVal :=
  .jobj (JObj.ofList
    [("hash", .jstr b.hash), ("chainId", .jbig b.chainId),
     ("calls", .jarr (JArr.ofList (b.calls.map callToJVal))),
     ("recentBlock", .jbig b.recentBlock)])

/-- JSON tree of the whole request, fields in declaration order; `undefined`
optional fields are omitted, as `JSON.stringify` omits them. -/
def requestToJVal (req : TxSubmitRequest) : JVal :=
  .jobj (JObj.ofList
    ([("address", .jstr req.address),
      ("authorization", .jarr (JArr.ofList (req.authorization.map authorizationToJVal))),
      ("intentAuthorization", .jobj (JObj.ofList
        [("signature", .jstr req.intentAuthorization.signature),
         ("chainBatches", .jarr (JArr.ofList
           (req.intentAuthorization.chainBatches.map batchToJVal)))]))] ++
     (match req.tokenAddress with
      | some a => [("tokenAddress", JVal.jstr a)]
      | none => []) ++
     (match req.tokenAmount with
      | some n => [("tokenAmount", JVal.jbig n)]
      | none => [])))

/-- The body string of the HTTP POST:
`JSON.stringify(request, (key, value) => typeof value === 'bigint' ?
value.toString() : value)`. -/
def submitRequestBody (req : TxSubmitRequest) : String :=
  renderJVal (requestToJVal req)

/-- What `response.json()` yields, fields possibly absent. -/
structure ParsedTxResponse where
  hash : Option String
  intentId : Option String
  deriving DecidableEq, Repr

/-- The relay's HTTP response as observed by the client: status code, body
text, and the result of parsing the body as JSON. -/
structure RelayResponse where
  status : Nat
  body : String
  json : Except String ParsedTxResponse
  deriving Repr

/-- The value `submitTransaction` resolves with. -/
structure TxSubmitResponse where
  hash : Option String
  intentId : String
  deriving DecidableEq, Repr

/-- The `fetch` Response `ok` flag: status in the 2xx range. -/
def respOk (resp : RelayResponse) : Bool :=
  200 ≤ resp.status && resp.status < 300

/-- submitTransaction (`README.md` lines 623-651): POST the serialized
request; on a non-ok response throw `Relayer API error: <status> - <body>`;
otherwise parse the body and return `{hash, intentId: result.intentId ||
request.intentAuthorization.signature}`.  The `catch` block only logs and
rethrows, so the propagated outcome is unchanged. -/
def submitTransaction (resp : RelayResponse) (req : TxSubmitRequest) :
    Except String TxSubmitResponse :=
  if respOk resp then
    match resp.json with
    | .error e => .error e
    | .ok result =>
      .ok ⟨result.hash,
           match result.intentId with
           | some s => if s = "" then req.intentAuthorization.signature else s
           | none => req.intentAuthorization.signature⟩
  else
    .error ("Relayer API error: " ++ toString resp.status ++ " - " ++ resp.body)

/-! ## Helper lemmas -/

@[simp] theorem exceptBind_ok {α β : Type} (a : α) (f : α → Except String β) :
    (Except.ok a >>= f) = f a := rfl

@[simp] theorem exceptBind_error {α β : Type} (e : String) (f : α → Except String β) :
    ((Except.error e : Except String α) >>= f) = Except.error e := rfl

theorem selectChain_map_hash (B : List ChainBatch) (sel : ChainSelector) :
    (selectChainForChainBatches B sel).map ChainBatch.hash = B.map ChainBatch.hash := by
  induction B with
  | nil => rfl
  | cons b bs ih => simp [selectChainForChainBatches, ih]

theorem selectChain_getD (sel : ChainSelector) (B : List ChainBatch) (i : Nat)
    (h : i < B.length) :
    (selectChainForChainBatches B sel).getD i defaultChainBatch =
      { B.getD i defaultChainBatch with
        calls := if sel.chainId = (B.getD i defaultChainBatch).chainId then
          (B.getD i defaultChainBatch).calls else [] } := by
  induction B generalizing i with
  | nil => simp at h
  | cons b bs ih =>
    cases i with
    | zero => rfl
    | succ n =>
      have hn : n < bs.length := by simpa using h
      simpa [selectChainForChainBatches] using ih n hn

theorem map_hash_eq_of_pointwise (B1 : List ChainBatch) :
    ∀ B2 : List ChainBatch, B1.length = B2.length →
    (∀ i, i < B1.length →
      (B1.getD i defaultChainBatch).hash = (B2.getD i defaultChainBatch).hash) →
    B1.map ChainBatch.hash = B2.map ChainBatch.hash := by
  induction B1 with
  | nil =>
    intro B2 hlen _
    cases B2 with
    | nil => rfl
    | cons c cs => simp at hlen
  | cons b bs ih =>
    intro B2 hlen hpt
    cases B2 with
    | nil => simp at hlen
    | cons c cs =>
      have h0 := hpt 0 (by simp)
      simp only [List.getD_cons_zero] at h0
      have ht := ih cs (by simpa using hlen) fun i hi => by
        simpa using hpt (i + 1) (by simpa using Nat.succ_lt_succ hi)
      simp [h0, ht]

theorem encodeUint256_ok (v : Int) (h0 : 0 ≤ v) (h1 : v < 2 ^ 256) :
    encodeUint256 v = .ok (word v.toNat) := by
  unfold encodeUint256
  exact if_pos ⟨h0, h1⟩

theorem encodeUint256_neg (v : Int) (h : v < 0) :
    encodeUint256 v = .error "IntegerOutOfRange" := by
  unfold encodeUint256
  exact if_neg fun hc => (Int.not_le.mpr h) hc.1

theorem encodeCall_ok (c : Call) (h : CallOk c) :
    encodeCall c =
      .ok (word c.«to» ++ word c.value.toNat ++ word 96 ++ encodeBytesDyn c.data) := by
  obtain ⟨hto, hv0, hv1⟩ := h
  unfold encodeCall encodeAddress
  rw [if_pos hto, encodeUint256_ok c.value hv0 hv1]
  rfl

theorem encodeCallList_ok (calls : List Call) (h : ∀ c ∈ calls, CallOk c) :
    ∃ es, encodeCallList calls = Except.ok es := by
  induction calls with
  | nil => exact ⟨[], rfl⟩
  | cons c cs ih =>
    obtain ⟨es, hes⟩ := ih fun x hx => h x (List.mem_cons_of_mem _ hx)
    refine ⟨(word c.«to» ++ word c.value.toNat ++ word 96 ++ encodeBytesDyn c.data) :: es, ?_⟩
    simp only [encodeCallList]
    rw [encodeCall_ok c (h c (List.mem_cons_self _ _)), exceptBind_ok, hes]
    rfl

theorem encodeBatchTuple_ok (cid rb : Int) (calls : List Call)
    (h0 : 0 ≤ cid) (h1 : cid < 2 ^ 256) (h2 : 0 ≤ rb) (h3 : rb < 2 ^ 256)
    (hc : ∀ c ∈ calls, CallOk c) :
    ∃ enc, encodeBatchTuple cid calls rb = Except.ok enc := by
  obtain ⟨es, hes⟩ := encodeCallList_ok calls hc
  refine ⟨word cid.toNat ++ word 96 ++ word rb.toNat ++
    (word calls.length ++ (callOffsets es).flatten ++ es.flatten), ?_⟩
  unfold encodeBatchTuple encodeCallArray
  rw [encodeUint256_ok cid h0 h1, exceptBind_ok, hes, exceptBind_ok, exceptBind_ok,
    encodeUint256_ok rb h2 h3]
  rfl

theorem encodeBatchTuple_error (cid rb : Int) (calls : List Call)
    (h : cid < 0 ∨ rb < 0) :
    ∃ msg, encodeBatchTuple cid calls rb = Except.error msg := by
  rcases h with h | h
  · refine ⟨"IntegerOutOfRange", ?_⟩
    unfold encodeBatchTuple
    rw [encodeUint256_neg cid h]
    rfl
  · cases h1 : encodeUint256 cid with
    | error e =>
      refine ⟨e, ?_⟩
      unfold encodeBatchTuple
      rw [h1]
      rfl
    | ok w =>
      cases h2 : encodeCallList calls with
      | error e =>
        refine ⟨e, ?_⟩
        unfold encodeBatchTuple encodeCallArray
        rw [h1, exceptBind_ok, h2]
        rfl
      | ok es =>
        refine ⟨"IntegerOutOfRange", ?_⟩
        unfold encodeBatchTuple encodeCallArray
        rw [h1, exceptBind_ok, h2, exceptBind_ok, exceptBind_ok, encodeUint256_neg rb h]
        rfl

theorem hashChainBatches_ok (inputs : List ChainBatchInput)
    (h : ∀ inp ∈ inputs, ChainBatchInputOk inp) :
    ∃ bs, hashChainBatches inputs = Except.ok bs ∧
      bs.length = inputs.length ∧
      ∀ i, i < inputs.length →
        ∃ enc,
          encodeBatchTuple (inputs.getD i defaultChainBatchInput).chainId
            (inputs.getD i defaultChainBatchInput).calls
            (inputs.getD i defaultChainBatchInput).recentBlock = Except.ok enc ∧
          bs.getD i defaultChainBatch =
            ⟨keccak256 enc, (inputs.getD i defaultChainBatchInput).chainId,
             (inputs.getD i defaultChainBatchInput).calls,
             (inputs.getD i defaultChainBatchInput).recentBlock⟩ := by
  induction inputs with
  | nil => exact ⟨[], rfl, rfl, fun i hi => absurd hi (by simp)⟩
  | cons inp rest ih =>
    obtain ⟨bs, hbs, hlen, hpt⟩ := ih fun x hx => h x (List.mem_cons_of_mem _ hx)
    obtain ⟨ok0, ok1, ok2, ok3, okc⟩ := h inp (List.mem_cons_self _ _)
    obtain ⟨enc, henc⟩ := encodeBatchTuple_ok inp.chainId inp.recentBlock inp.calls
      ok0 ok1 ok2 ok3 okc
    refine ⟨⟨keccak256 enc, inp.chainId, inp.calls, inp.recentBlock⟩ :: bs, ?_, ?_, ?_⟩
    · simp only [hashChainBatches]
      rw [henc, exceptBind_ok, hbs, exceptBind_ok]
    · simpa using hlen
    · intro i hi
      cases i with
      | zero => exact ⟨enc, by simpa using henc, by simp⟩
      | succ n =>
        have hn : n < rest.length := by simpa using hi
        simpa using hpt n hn

theorem hashChainBatches_error (inputs : List ChainBatchInput)
    (h : ∃ inp ∈ inputs, inp.chainId < 0 ∨ inp.recentBlock < 0) :
    ∃ msg, hashChainBatches inputs = Except.error msg := by
  induction inputs with
  | nil => simp at h
  | cons inp rest ih =>
    obtain ⟨x, hx, hbad⟩ := h
    rcases List.mem_cons.mp hx with rfl | hxr
    · obtain ⟨msg, hm⟩ := encodeBatchTuple_error x.chainId x.recentBlock x.calls hbad
      refine ⟨msg, ?_⟩
      simp only [hashChainBatches]
      rw [hm]
      rfl
    · cases h1 : encodeBatchTuple inp.chainId inp.calls inp.recentBlock with
      | error e =>
        refine ⟨e, ?_⟩
        simp only [hashChainBatches]
        rw [h1]
        rfl
      | ok enc =>
        obtain ⟨msg, hm⟩ := ih ⟨x, hxr, hbad⟩
        refine ⟨msg, ?_⟩
        simp only [hashChainBatches]
        rw [h1, exceptBind_ok, hm]
        rfl

theorem waitForBlockLoop_exit_gt (fuel : Nat) (blockAt : Nat → Int) (w : Int) :
    ∀ i j, waitForBlockLoop fuel blockAt w i = some j → blockAt j > w := by
  induction fuel with
  | zero =>
    intro i j h
    simp [waitForBlockLoop] at h
  | succ n ih =>
    intro i j h
    by_cases hb : blockAt i > w
    · simp only [waitForBlockLoop, if_pos hb, Option.some.injEq] at h
      exact h ▸ hb
    · simp only [waitForBlockLoop, if_neg hb] at h
      exact ih (i + 1) j h

/-- Concatenation of equal-length lists of 32-byte chunks determines the
chunks. -/
theorem flatten_len32_inj (a : List (List Nat)) :
    ∀ b : List (List Nat), (∀ x ∈ a, x.length = 32) → (∀ x ∈ b, x.length = 32) →
    a.length = b.length → a.flatten = b.flatten → a = b := by
  induction a with
  | nil =>
    intro b _ _ hlen _
    cases b with
    | nil => rfl
    | cons y ys => simp at hlen
  | cons x xs ih =>
    intro b ha hb hlen hfl
    cases b with
    | nil => simp at hlen
    | cons y ys =>
      simp only [List.flatten_cons] at hfl
      have hx : x.length = y.length := by
        rw [ha x (List.mem_cons_self _ _), hb y (List.mem_cons_self _ _)]
      obtain ⟨h1, h2⟩ := List.append_inj hfl hx
      rw [h1, ih ys (fun z hz => ha z (List.mem_cons_of_mem _ hz))
        (fun z hz => hb z (List.mem_cons_of_mem _ hz)) (by simpa using hlen) h2]

/-- A list of length at least two whose elements are pairwise distinct is not
its own reverse (its first and last elements differ). -/
theorem pairwise_ne_ne_reverse {α : Type} (l : List α) (h2 : 2 ≤ l.length)
    (hp : l.Pairwise (fun a b => a ≠ b)) : l ≠ l.reverse := by
  match l, h2, hp with
  | a :: b :: t, _, hp =>
    intro heq
    have hne : b :: t ≠ [] := by simp
    have hlast : (a :: b :: t).getLast (by simp) = (b :: t).getLast hne :=
      List.getLast_cons hne
    have hsome : some a = (a :: b :: t).getLast? := by
      calc some a = (a :: b :: t).head? := rfl
        _ = (a :: b :: t).reverse.head? := by rw [← heq]
        _ = (a :: b :: t).getLast? := List.head?_reverse _
    rw [List.getLast?_eq_getLast _ (by simp), hlast, Option.some.injEq] at hsome
    have hmem : (b :: t).getLast hne ∈ b :: t := List.getLast_mem hne
    exact (List.pairwise_cons.mp hp).1 _ hmem (hsome)

/-- Reduction of the order-sensitivity property to keccak-256 collision
freeness: for at least two batches with pairwise-distinct well-formed
hashes, the digests of the list and of its reverse are keccak256 of two
provably distinct encodings, so the digests differ exactly when keccak256
does not collide on that pair of encodings. -/
theorem getIntentHash_reverse_reduces_to_keccak (B : List ChainBatch)
    (h2 : 2 ≤ B.length)
    (hdist : (B.map ChainBatch.hash).Pairwise (fun a b => a ≠ b))
    (h32 : ∀ b ∈ B, b.hash.length = 32) :
    ∃ e1 e2,
      getIntentHash B = Except.ok (keccak256 e1) ∧
      getIntentHash B.reverse = Except.ok (keccak256 e2) ∧
      e1 ≠ e2 := by
  have hall : ∀ x ∈ B.map ChainBatch.hash, x.length = 32 := by
    intro x hx
    obtain ⟨b, hb, rfl⟩ := List.mem_map.mp hx
    exact h32 b hb
  have hallRev : ∀ x ∈ B.reverse.map ChainBatch.hash, x.length = 32 := by
    intro x hx
    obtain ⟨b, hb, rfl⟩ := List.mem_map.mp hx
    exact h32 b (List.mem_reverse.mp hb)
  have hcond : (B.map ChainBatch.hash).all (fun h => h.length == 32) = true :=
    List.all_eq_true.mpr fun x hx => beq_iff_eq.mpr (hall x hx)
  have hcondRev :
      (B.reverse.map ChainBatch.hash).all (fun h => h.length == 32) = true :=
    List.all_eq_true.mpr fun x hx => beq_iff_eq.mpr (hallRev x hx)
  have henc : encodeBytes32Array (B.map ChainBatch.hash) =
      Except.ok (word 32 ++ word (B.map ChainBatch.hash).length ++
        (B.map ChainBatch.hash).flatten) := by
    unfold encodeBytes32Array
    rw [if_pos hcond]
  have hencRev : encodeBytes32Array (B.reverse.map ChainBatch.hash) =
      Except.ok (word 32 ++ word (B.reverse.map ChainBatch.hash).length ++
        (B.reverse.map ChainBatch.hash).flatten) := by
    unfold encodeBytes32Array
    rw [if_pos hcondRev]
  refine ⟨word 32 ++ word (B.map ChainBatch.hash).length ++
      (B.map ChainBatch.hash).flatten,
    word 32 ++ word (B.reverse.map ChainBatch.hash).length ++
      (B.reverse.map ChainBatch.hash).flatten, ?_, ?_, ?_⟩
  · unfold getIntentHash
    rw [henc]
    rfl
  · unfold getIntentHash
    rw [hencRev]
    rfl
  · intro hEq
    have hmaprev : B.reverse.map ChainBatch.hash = (B.map ChainBatch.hash).reverse :=
      List.map_reverse _ _
    have hlen : (B.map ChainBatch.hash).length =
        (B.reverse.map ChainBatch.hash).length := by
      rw [hmaprev, List.length_reverse]
    rw [← hlen] at hEq
    have hfl := List.append_cancel_left hEq
    have hsame : B.map ChainBatch.hash = B.reverse.map ChainBatch.hash :=
      flatten_len32_inj _ _ hall hallRev hlen hfl
    rw [hmaprev] at hsame
    exact pairwise_ne_ne_reverse (B.map ChainBatch.hash) (by simpa using h2)
      hdist hsame

/-! ## Example fixtures (Scenario A/B of the spec, and response samples) -/

def scenarioInputs : List ChainBatchInput :=
  [⟨1, [⟨0xAA, 100, []⟩], 10⟩, ⟨2, [⟨0xBB, 0, [0x12, 0x34]⟩], 20⟩]

def sampleHash : List Nat := List.replicate 32 0xAA

def sampleBatches : List ChainBatch :=
  [⟨List.replicate 32 0x01, 1, [⟨0xAA, 100, []⟩], 10⟩,
   ⟨List.replicate 32 0x02, 2, [⟨0xBB, 0, [0x12, 0x34]⟩], 20⟩]

def contentVariantA : List ChainBatch := [⟨sampleHash, 1, [⟨0xAA, 100, []⟩], 10⟩]

def contentVariantB : List ChainBatch := [⟨sampleHash, 2, [], 99⟩]

def negInput : ChainBatchInput := ⟨-1, [], 5⟩

def sampleRequest : TxSubmitRequest :=
  ⟨"0xuser",
   [⟨"0xdelegate", 1, 0, "0xr", "0xs", 0, some 27⟩],
   ⟨"0xsig", [⟨"0xabc", 5, [⟨"0xto", 7, "0x"⟩], 9⟩]⟩,
   none, none⟩

def badResp : RelayResponse := ⟨500, "boom", .error "invalid json"⟩

def goodResp : RelayResponse := ⟨200, "body", .ok ⟨some "0xhash", some "intent-1"⟩⟩

def falsyResp : RelayResponse := ⟨201, "body", .ok ⟨some "0xabc", none⟩⟩

/-! ## Claims -/

/-- C1: disclosure invariance.  For every list of chain batches and every
chain id, the intent digest of the disclosed batch set equals the intent
digest of the original batches: selection rewrites only `calls`, and
`getIntentHash` reads only the `hash` fields. -/
theorem getIntentHash_disclosure_invariant (B : List ChainBatch) (c : Int) :
    getIntentHash (selectChainForChainBatches B ⟨c⟩) = getIntentHash B := by
  unfold getIntentHash
  rw [selectChain_map_hash]

/-- C2: redaction correctness.  `selectChainForChainBatches(B, {chainId: c})`
keeps length and order; entry `i` keeps its `hash`, `chainId` and
`recentBlock`, keeps its `calls` exactly when its `chainId` equals `c`, and
has `calls = []` otherwise. -/
theorem selectChain_redaction (B : List ChainBatch) (c : Int) :
    (selectChainForChainBatches B ⟨c⟩).length = B.length ∧
    ∀ i, i < B.length →
      ((selectChainForChainBatches B ⟨c⟩).getD i defaultChainBatch).hash =
        (B.getD i defaultChainBatch).hash ∧
      ((selectChainForChainBatches B ⟨c⟩).getD i defaultChainBatch).chainId =
        (B.getD i defaultChainBatch).chainId ∧
      ((selectChainForChainBatches B ⟨c⟩).getD i defaultChainBatch).recentBlock =
        (B.getD i defaultChainBatch).recentBlock ∧
      ((B.getD i defaultChainBatch).chainId = c →
        ((selectChainForChainBatches B ⟨c⟩).getD i defaultChainBatch).calls =
          (B.getD i defaultChainBatch).calls) ∧
      ((B.getD i defaultChainBatch).chainId ≠ c →
        ((selectChainForChainBatches B ⟨c⟩).getD i defaultChainBatch).calls = []) := by
  refine ⟨by simp [selectChainForChainBatches], fun i hi => ?_⟩
  rw [selectChain_getD ⟨c⟩ B i hi]
  refine ⟨rfl, rfl, rfl, fun hEq => ?_, fun hNe => ?_⟩
  · show (if c = (B.getD i defaultChainBatch).chainId then
        (B.getD i defaultChainBatch).calls else []) = (B.getD i defaultChainBatch).calls
    rw [if_pos hEq.symm]
  · show (if c = (B.getD i defaultChainBatch).chainId then
        (B.getD i defaultChainBatch).calls else []) = []
    rw [if_neg fun hc => hNe hc.symm]

/-- C2 witness: in the sample batch set, selecting chain 1 empties the calls
of the chain-2 entry. -/
theorem selectChain_redaction_witness :
    1 < sampleBatches.length ∧
    (sampleBatches.getD 1 defaultChainBatch).chainId ≠ 1 ∧
    ((selectChainForChainBatches sampleBatches ⟨1⟩).getD 1 defaultChainBatch).calls = [] :=
  ⟨by decide, by decide,
   (((selectChain_redaction sampleBatches 1).2 1 (by decide)).2.2.2.2) (by decide)⟩

/-- C3 counterexample: on the empty batch list, `getIntentHash` does not
raise: it returns an ok result (viem happily ABI-encodes an empty `bytes32[]`
and keccak256 hashes the 64-byte encoding). -/
theorem getIntentHash_empty_returns : exceptOk (getIntentHash []) = true := rfl

/-- C3 (amended): `getIntentHash([])` returns the keccak256 of the ABI
encoding of the empty `bytes32[]` array (the offset word 32 followed by the
length word 0) instead of raising an error. -/
theorem getIntentHash_empty_ok :
    getIntentHash [] = Except.ok (keccak256 (word 32 ++ word 0)) := by rfl

/-- C4 counterexample: the input `{chainId: 2^256, calls: [], recentBlock:
0}` has non-negative fields, yet `hashChainBatches` raises viem's
integer-range validation error instead of returning a batch list. -/
theorem hashChainBatches_large_chainId_fails :
    hashChainBatches [⟨(2 : Int) ^ 256, [], 0⟩] = Except.error "IntegerOutOfRange" := rfl

/-- C4 (amended: non-negative alone does not suffice, the uint256/address
range checks of the ABI encoder also bound the values above).  For every
input list whose `chainId`, `recentBlock` and call `value`s lie in the
uint256 range and whose call addresses are 160-bit values, `hashChainBatches`
returns one `ChainBatch` per input in input order, passing `chainId`,
`calls` and `recentBlock` through, with `hash` the keccak256 of the ABI
encoding of the fixed-order tuple `(chainId: uint256, calls:
(address,uint256,bytes)[], recentBlock: uint256)`; determinism is immediate
because the embedding is a pure function of the input. -/
theorem hashChainBatches_spec (inputs : List ChainBatchInput)
    (h : ∀ inp ∈ inputs, ChainBatchInputOk inp) :
    ∃ bs, hashChainBatches inputs = Except.ok bs ∧
      bs.length = inputs.length ∧
      ∀ i, i < inputs.length →
        ∃ enc,
          encodeBatchTuple (inputs.getD i defaultChainBatchInput).chainId
            (inputs.getD i defaultChainBatchInput).calls
            (inputs.getD i defaultChainBatchInput).recentBlock = Except.ok enc ∧
          bs.getD i defaultChainBatch =
            ⟨keccak256 enc, (inputs.getD i defaultChainBatchInput).chainId,
             (inputs.getD i defaultChainBatchInput).calls,
             (inputs.getD i defaultChainBatchInput).recentBlock⟩ :=
  hashChainBatches_ok inputs h

/-- C4 witness: the Scenario A inputs are in range and hash to one batch per
input. -/
theorem hashChainBatches_spec_witness :
    (∀ inp ∈ scenarioInputs, ChainBatchInputOk inp) ∧
    ∃ bs, hashChainBatches scenarioInputs = Except.ok bs ∧
      bs.length = scenarioInputs.length ∧
      ∀ i, i < scenarioInputs.length →
        ∃ enc,
          encodeBatchTuple (scenarioInputs.getD i defaultChainBatchInput).chainId
            (scenarioInputs.getD i defaultChainBatchInput).calls
            (scenarioInputs.getD i defaultChainBatchInput).recentBlock = Except.ok enc ∧
          bs.getD i defaultChainBatch =
            ⟨keccak256 enc, (scenarioInputs.getD i defaultChainBatchInput).chainId,
             (scenarioInputs.getD i defaultChainBatchInput).calls,
             (scenarioInputs.getD i defaultChainBatchInput).recentBlock⟩ :=
  ⟨by decide, hashChainBatches_spec scenarioInputs (by decide)⟩

/-- C6 counterexample: `{chainId: 0, calls: [], recentBlock: 2^256}` has only
non-negative fields, yet `hashChainBatches` fails. -/
theorem hashChainBatches_large_recentBlock_fails :
    hashChainBatches [⟨0, [], (2 : Int) ^ 256⟩] = Except.error "IntegerOutOfRange" := rfl

/-- C6 (amended: the no-failure direction needs the uint256/address upper
bounds, not just non-negativity; non-integral JS numbers, which `BigInt()`
rejects, are outside the integer model).  `hashChainBatches` fails with a
validation error whenever some entry has a negative `chainId` or
`recentBlock`, and succeeds whenever every entry is within the encoder's
ranges. -/
theorem hashChainBatches_validation (inputs : List ChainBatchInput) :
    ((∃ inp ∈ inputs, inp.chainId < 0 ∨ inp.recentBlock < 0) →
      ∃ msg, hashChainBatches inputs = Except.error msg) ∧
    ((∀ inp ∈ inputs, ChainBatchInputOk inp) →
      ∃ bs, hashChainBatches inputs = Except.ok bs) :=
  ⟨hashChainBatches_error inputs,
   fun h => (hashChainBatches_ok inputs h).elim fun bs hb => ⟨bs, hb.1⟩⟩

/-- C6 witness: a negative chainId fails; the in-range Scenario A inputs
succeed. -/
theorem hashChainBatches_validation_witness :
    ((∃ inp ∈ [negInput], inp.chainId < 0 ∨ inp.recentBlock < 0) ∧
      ∃ msg, hashChainBatches [negInput] = Except.error msg) ∧
    ((∀ inp ∈ scenarioInputs, ChainBatchInputOk inp) ∧
      ∃ bs, hashChainBatches scenarioInputs = Except.ok bs) :=
  ⟨⟨by decide, (hashChainBatches_validation [negInput]).1 (by decide)⟩,
   ⟨by decide, (hashChainBatches_validation scenarioInputs).2 (by decide)⟩⟩

/-- C7: the orchestrator does not order submission after the watermark.
Because `main` never awaits `waitForBlock` (it only attaches a logging
`.then`), the schedule that submits the self-execute transaction before any
successful watermark poll respects every await-induced ordering of the code:
the missing `await` admits submission while the chain head is still at or
below `recentBlock`, contradicting the claimed temporal guarantee. -/
theorem earlySubmit_is_valid_schedule :
    validMainSchedule earlySubmitSchedule = true ∧
    earlySubmitSchedule.indexOf (.submitSelfExecute .source) <
      earlySubmitSchedule.indexOf (.watermarkObserved .source) :=
  ⟨by decide, by decide⟩

/-- C8: `submitTransaction` serializes the request with the bigint-aware
replacer (each bigint leaf becomes its decimal string in the JSON body),
raises `Relayer API error: <status> - <body>` on every non-2xx response, and
returns an ok `{hash, intentId}` object on a parsed 2xx response. -/
theorem submitTransaction_spec (resp : RelayResponse) (req : TxSubmitRequest) (n : Int) :
    submitRequestBody req = renderJVal (requestToJVal req) ∧
    renderJVal (JVal.jbig n) = "\"" ++ toString n ++ "\"" ∧
    (respOk resp = false →
      submitTransaction resp req =
        Except.error ("Relayer API error: " ++ toString resp.status ++ " - " ++ resp.body)) ∧
    (respOk resp = true → ∀ r, resp.json = Except.ok r →
      ∃ out, submitTransaction resp req = Except.ok out) := by
  refine ⟨rfl, by simp [renderJVal], fun hok => ?_, fun hok r hr => ?_⟩
  · simp [submitTransaction, hok]
  · refine ⟨⟨r.hash,
      match r.intentId with
      | some s => if s = "" then req.intentAuthorization.signature else s
      | none => req.intentAuthorization.signature⟩, ?_⟩
    simp [submitTransaction, hok, hr]

/-- C8 witness: a 500 response raises with status and body; a 200 response
with parsed fields returns ok. -/
theorem submitTransaction_spec_witness :
    respOk badResp = false ∧
    submitTransaction badResp sampleRequest =
      Except.error ("Relayer API error: " ++ toString badResp.status ++ " - " ++ badResp.body) ∧
    respOk goodResp = true ∧
    ∃ out, submitTransaction goodResp sampleRequest = Except.ok out :=
  ⟨by decide,
   (submitTransaction_spec badResp sampleRequest 0).2.2.1 (by decide),
   by decide,
   (submitTransaction_spec goodResp sampleRequest 0).2.2.2 (by decide)
     ⟨some "0xhash", some "intent-1"⟩ rfl⟩

/-- C9: `getIntentHash` reads only the `hash` field of each batch: two batch
lists of equal length with pointwise-equal hashes yield the same digest even
when `calls`, `chainId` and `recentBlock` differ arbitrarily. -/
theorem getIntentHash_ignores_contents (B1 B2 : List ChainBatch)
    (hlen : B1.length = B2.length)
    (hh : ∀ i, i < B1.length →
      (B1.getD i defaultChainBatch).hash = (B2.getD i defaultChainBatch).hash) :
    getIntentHash B1 = getIntentHash B2 := by
  unfold getIntentHash
  rw [map_hash_eq_of_pointwise B1 B2 hlen hh]

/-- C9 witness: two single-batch lists sharing a hash but differing in every
other field produce the same digest. -/
theorem getIntentHash_ignores_contents_witness :
    contentVariantA.length = contentVariantB.length ∧
    getIntentHash contentVariantA = getIntentHash contentVariantB :=
  ⟨by decide, getIntentHash_ignores_contents contentVariantA contentVariantB
    (by decide) (by decide)⟩

/-- C10: on a 2xx response whose parsed `intentId` is absent or the empty
string, `submitTransaction` substitutes the request's intent signature as
the returned `intentId`. -/
theorem submitTransaction_intentId_fallback (resp : RelayResponse)
    (req : TxSubmitRequest) (r : ParsedTxResponse)
    (hok : respOk resp = true) (hr : resp.json = Except.ok r)
    (hfalsy : r.intentId = none ∨ r.intentId = some "") :
    submitTransaction resp req = Except.ok ⟨r.hash, req.intentAuthorization.signature⟩ := by
  rcases hfalsy with h | h <;> simp [submitTransaction, hok, hr, h]

/-- C10 witness: a 201 response with no `intentId` field returns the
request's signature as the intent id. -/
theorem submitTransaction_intentId_fallback_witness :
    respOk falsyResp = true ∧
    submitTransaction falsyResp sampleRequest =
      Except.ok ⟨some "0xabc", sampleRequest.intentAuthorization.signature⟩ :=
  ⟨by decide,
   submitTransaction_intentId_fallback falsyResp sampleRequest ⟨some "0xabc", none⟩
     (by decide) rfl (Or.inl rfl)⟩
